import Mathlib

/-!
Verification of the game-data retrieval and search-ranking layer of the
mini-game-hub repository: entity construction (`Game`), the storage-backed
loader (`GameDataManager.loadGames` / `refreshData` / `getCachedData` /
`setCachedData`), the relevance scorer (`GameDataManager.calculateSearchScore`),
the query pipeline (`searchGames` / `advancedSearch` / `sortGames`) and the
`Debouncer` input adapter from `SearchFilter.js`.

Modelling conventions, applied throughout:
* JavaScript strings are `List Char`; `toLowerCase` maps `Char.toLower` over
  the characters, `trim` drops whitespace from both ends, and `split(/\s+/)`
  followed by dropping empty chunks is `splitWs`.
* JavaScript numbers are `ℚ` (ratings, comparator values) or `Int`
  (timestamps, counts); `parseFloat(x) || 0` and `parseInt(x) || 0` are
  modelled by an `Option`-valued raw field (`none` = absent or non-numeric
  input, i.e. a `NaN` parse) read with default `0`.
* `Date` values are their millisecond timestamps (`Int`); `new Date(0)` is
  `0`.  A raw `releaseDate` is modelled as the timestamp its date string
  parses to (`none` when the raw field is absent or falsy).  The ISO string
  that `JSON.stringify` produces from a `Date` is modelled by the injective
  timestamp-to-string map `isoOf`; the claims only depend on serialization
  turning a date into a string, never on the exact format.
* `localeCompare` is modelled as code-point lexicographic comparison.
* `fetch` + `response.json()` + the `Array.isArray(data.games)` shape check
  are one `Except Unit (List RawGame)` input to the loader (`Except.error` =
  transport failure, non-success HTTP status, or a payload without a `games`
  array).
* `localStorage` is modelled as working storage (the spec's best-effort
  degradation paths are not exercised by the claims); the stored JSON string
  is represented by the value parsing it back would produce.
* The sort used by `Array.prototype.sort` is stable (ES2019); it is modelled
  by the stable insertion sort `sortStable`, parameterised by the boolean
  relation "the comparator result is ≤ 0".
* `setTimeout` / `clearTimeout` in `Debouncer` are modelled by a discrete
  event trace: `debounceRun` maps the ordered list of `execute` calls to the
  list of callback firings.
-/

/-- JavaScript strings, as lists of characters. -/
abbrev Str := List Char

/-- `String.prototype.toLowerCase`, character by character. -/
def jsToLower (s : Str) : Str := s.map Char.toLower

/-- Whitespace test used by `trim` and the `/\s+/` splitter. -/
def isWs (c : Char) : Bool := c.isWhitespace

/-- `String.prototype.trim`: drop whitespace from both ends. -/
def trimStr (s : Str) : Str :=
  ((s.dropWhile isWs).reverse.dropWhile isWs).reverse

/-- Scanner behind `splitWs`: `acc` holds the reversed characters of the
current (possibly empty) run of non-whitespace characters. -/
def splitWsAux : Str → Str → List Str
  | [], acc => if acc.isEmpty then [] else [acc.reverse]
  | c :: cs, acc =>
    if isWs c then
      if acc.isEmpty then splitWsAux cs []
      else acc.reverse :: splitWsAux cs []
    else splitWsAux cs (c :: acc)

/-- `s.split(/\s+/).filter(w => w.length > 0)`: the maximal runs of
non-whitespace characters of `s`, in order. -/
def splitWs (s : Str) : List Str := splitWsAux s []

/-- The `Game` entity of `GameDataManager.js` (class `Game`): the fields the
constructor assigns, with the types the catalog rows carry.  `releaseDate` is
the parsed timestamp, or `none` for the constructor's `null`. -/
structure Game where
  id : Str
  title : Str
  description : Str
  fullDescription : Str
  genre : List Str
  rating : ℚ
  reviewCount : Int
  thumbnail : Str
  screenshots : List Str
  systemRequirements : List (Str × Str)
  officialWebsite : Str
  downloadLinks : List (Str × Str)
  releaseDate : Option Int
  developer : Str
  tags : List Str
deriving DecidableEq

/-- One raw catalog row, as fed to the `Game` constructor.  `none` stands for
an absent field (and, for `rating` / `reviewCount`, for a non-numeric value
whose parse is `NaN`; for `genre` / `tags` / `screenshots` / `downloadLinks`,
for a value that fails `Array.isArray`). -/
structure RawGame where
  id : Option Str
  title : Option Str
  description : Option Str
  fullDescription : Option Str
  genre : Option (List Str)
  rating : Option ℚ
  reviewCount : Option Int
  thumbnail : Option Str
  screenshots : Option (List Str)
  systemRequirements : Option (List (Str × Str))
  officialWebsite : Option Str
  downloadLinks : Option (List (Str × Str))
  releaseDate : Option Int
  developer : Option Str
  tags : Option (List Str)
deriving DecidableEq

/-- JavaScript falsiness of an optional string field: absent or empty. -/
def falsyStr : Option Str → Bool
  | none => true
  | some s => s.isEmpty

/-- `x || dflt` for an optional string field: the value when present and
non-empty, the default otherwise. -/
def orEmpty (o : Option Str) (dflt : Str) : Str :=
  match o with
  | none => dflt
  | some s => if s.isEmpty then dflt else s

/-- The `Game` constructor: throws (`Except.error`) when `id` or `title` is
falsy, otherwise builds the entity applying the constructor's defaults. -/
def mkGame (data : RawGame) : Except Unit Game :=
  if falsyStr data.id || falsyStr data.title then Except.error ()
  else Except.ok
    { id := data.id.getD []
      title := data.title.getD []
      description := orEmpty data.description []
      fullDescription := orEmpty data.fullDescription (orEmpty data.description [])
      genre := data.genre.getD []
      rating := data.rating.getD 0
      reviewCount := data.reviewCount.getD 0
      thumbnail := orEmpty data.thumbnail ("images/placeholder.jpg".data)
      screenshots := data.screenshots.getD []
      systemRequirements := data.systemRequirements.getD []
      officialWebsite := orEmpty data.officialWebsite []
      downloadLinks := data.downloadLinks.getD []
      releaseDate := data.releaseDate
      developer := orEmpty data.developer []
      tags := data.tags.getD [] }

/-- `data.games.map(gameData => new Game(gameData))`: constructs every row,
propagating the first construction failure (JavaScript `map` throws). -/
def mkGames : List RawGame → Except Unit (List Game)
  | [] => Except.ok []
  | d :: ds =>
    match mkGame d, mkGames ds with
    | Except.ok g, Except.ok gs => Except.ok (g :: gs)
    | Except.error e, _ => Except.error e
    | _, Except.error e => Except.error e

/-- `GameDataManager.calculateSearchScore`: the additive multi-field relevance
score of a game against the lower-cased trimmed term and its words. -/
def calculateSearchScore (game : Game) (searchTerm : Str) (searchWords : List Str) : ℕ :=
  let title := jsToLower game.title
  let description := jsToLower game.description
  let fullDescription := jsToLower game.fullDescription
  let developer := jsToLower game.developer
  let genres := game.genre.map jsToLower
  let tags := game.tags.map jsToLower
  let titleTier : ℕ :=
    if title = searchTerm then 100
    else if searchTerm <+: title then 80
    else if searchTerm <:+: title then 60
    else 0
  let titleWords := 40 * searchWords.countP (fun w => decide (w <:+: title))
  let genreScore := (genres.map (fun genre =>
    (if genre = searchTerm then 70 else if searchTerm <:+: genre then 50 else 0)
      + 30 * searchWords.countP (fun w => decide (w <:+: genre)))).sum
  let tagScore := (tags.map (fun tag =>
    (if tag = searchTerm then 60 else if searchTerm <:+: tag then 40 else 0)
      + 25 * searchWords.countP (fun w => decide (w <:+: tag)))).sum
  let devScore := (if searchTerm <:+: developer then 35 else 0)
      + 20 * searchWords.countP (fun w => decide (w <:+: developer))
  let descScore := (if searchTerm <:+: description then 25 else 0)
      + (if searchTerm <:+: fullDescription then 20 else 0)
      + 15 * searchWords.countP (fun w => decide (w <:+: description))
      + 10 * searchWords.countP (fun w => decide (w <:+: fullDescription))
  titleTier + titleWords + genreScore + tagScore + devScore + descScore

/-- Insert `x` into `l` before the first element `y` with `r x y`; the
insertion step of a stable sort for the "may come before" relation `r`. -/
def insertOrd (r : α → α → Bool) (x : α) : List α → List α
  | [] => [x]
  | y :: ys => if r x y then x :: y :: ys else y :: insertOrd r x ys

/-- Stable insertion sort: the unique stable sort consistent with a total
comparator, hence the model of ES2019 `Array.prototype.sort`. -/
def sortStable (r : α → α → Bool) : List α → List α
  | [] => []
  | x :: xs => insertOrd r x (sortStable r xs)

/-- The comparator `(a, b) => b.score - a.score` of `searchGames`, as the
relation "`a` may be placed before `b`". -/
def searchScoreGe (a b : Game × ℕ) : Bool := decide (b.2 ≤ a.2)

/-- `GameDataManager.searchGames`, as a function of the loaded catalog:
empty or blank query passes the catalog through; otherwise score, keep
positive scores, stable-sort descending by score. -/
def searchGames (games : List Game) (query : Str) : List Game :=
  if trimStr query = [] then games
  else
    let searchTerm := trimStr (jsToLower query)
    let searchWords := splitWs searchTerm
    let scored :=
      (games.map (fun g => (g, calculateSearchScore g searchTerm searchWords))).filter
        (fun it => decide (0 < it.2))
    (sortStable searchScoreGe scored).map Prod.fst

/-- The relevance score `searchGames` assigns to `g` for `query` (the scorer
applied to the lower-cased trimmed term and its words). -/
def searchRank (query : Str) (g : Game) : ℕ :=
  calculateSearchScore g (trimStr (jsToLower query)) (splitWs (trimStr (jsToLower query)))

/-- `String.prototype.localeCompare`, modelled as code-point lexicographic
comparison returning -1 / 0 / 1. -/
def lexCompare : Str → Str → Int
  | [], [] => 0
  | [], _ :: _ => -1
  | _ :: _, [] => 1
  | a :: as, b :: bs => if a < b then -1 else if b < a then 1 else lexCompare as bs

/-- The comparison value of `GameDataManager.sortGames` before the order flip:
the requested field's difference, `0` for an unknown `sortBy`.  Absent release
dates read as `new Date(0)`, i.e. timestamp `0`. -/
def gameComparison (sortBy : Str) (a b : Game) : ℚ :=
  if sortBy = "rating".data then a.rating - b.rating
  else if sortBy = "title".data then (lexCompare a.title b.title : ℚ)
  else if sortBy = "releaseDate".data then
    ((a.releaseDate.getD 0 - b.releaseDate.getD 0 : Int) : ℚ)
  else if sortBy = "reviewCount".data then ((a.reviewCount - b.reviewCount : Int) : ℚ)
  else 0

/-- `GameDataManager.sortGames`: stable sort by the requested field, ascending
exactly when `order` is `"asc"`, otherwise descending. -/
def sortGames (games : List Game) (sortBy : Str) (order : Str) : List Game :=
  sortStable
    (fun a b =>
      decide ((if order = "asc".data then gameComparison sortBy a b
        else -gameComparison sortBy a b) ≤ 0))
    games

/-- The `filters` argument of `GameDataManager.advancedSearch`; `none` models
an absent (`undefined`) property. -/
structure Filters where
  query : Option Str
  genre : Option Str
  minRating : Option ℚ
  maxRating : Option ℚ
  sortBy : Option Str
  sortOrder : Option Str
deriving DecidableEq

/-- `GameDataManager.advancedSearch`, as a function of the loaded catalog:
text search, then genre filter, then rating-range filters, then the explicit
sort, each stage guarded by the truthiness tests of the source. -/
def advancedSearch (games : List Game) (filters : Filters) : List Game :=
  let g1 := filters.query.elim games (fun q =>
    if q ≠ [] ∧ trimStr q ≠ [] then searchGames games q else games)
  let g2 := filters.genre.elim g1 (fun gen =>
    if gen ≠ [] ∧ gen ≠ "all".data then
      g1.filter (fun game => game.genre.any (fun s => jsToLower s == jsToLower gen))
    else g1)
  let g3 := filters.minRating.elim g2 (fun m =>
    g2.filter (fun game => decide (m ≤ game.rating)))
  let g4 := filters.maxRating.elim g3 (fun m =>
    g3.filter (fun game => decide (game.rating ≤ m)))
  filters.sortBy.elim g4 (fun sb =>
    if sb ≠ [] then sortGames g4 sb (orEmpty filters.sortOrder ("desc".data)) else g4)

/-- The `releaseDate` property of an in-memory game object: a `Date` (as its
timestamp), `null`, or — after a JSON round trip — a date string. -/
inductive DateVal where
  | null : DateVal
  | date : Int → DateVal
  | str : Str → DateVal
deriving DecidableEq

/-- The own data properties of an in-memory game object, as held in
`this.games`: either a constructed `Game` entity or the plain object obtained
by parsing the cached JSON.  The two differ only in the `releaseDate`
representation (entity methods live on the prototype and are not own
properties, so `JSON.stringify` never sees them). -/
structure GVal where
  id : Str
  title : Str
  description : Str
  fullDescription : Str
  genre : List Str
  rating : ℚ
  reviewCount : Int
  thumbnail : Str
  screenshots : List Str
  systemRequirements : List (Str × Str)
  officialWebsite : Str
  downloadLinks : List (Str × Str)
  releaseDate : DateVal
  developer : Str
  tags : List Str
deriving DecidableEq

/-- The ISO rendering `JSON.stringify` applies to a `Date`, modelled as an
injective timestamp-to-string map (the exact format is irrelevant to the
claims; only that the result is a string, not a date). -/
def isoOf (t : Int) : Str := (toString t).data

/-- The value form of a constructed `Game` entity: `releaseDate` is a date or
`null`. -/
def Game.toVal (g : Game) : GVal :=
  { id := g.id
    title := g.title
    description := g.description
    fullDescription := g.fullDescription
    genre := g.genre
    rating := g.rating
    reviewCount := g.reviewCount
    thumbnail := g.thumbnail
    screenshots := g.screenshots
    systemRequirements := g.systemRequirements
    officialWebsite := g.officialWebsite
    downloadLinks := g.downloadLinks
    releaseDate := match g.releaseDate with
      | none => DateVal.null
      | some t => DateVal.date t
    developer := g.developer
    tags := g.tags }

/-- What `JSON.stringify` followed by `JSON.parse` does to a `releaseDate`
value: a date becomes its ISO string, `null` and strings are preserved. -/
def serializeDate : DateVal → DateVal
  | DateVal.date t => DateVal.str (isoOf t)
  | d => d

/-- The JSON round trip of a game object: every field is a plain JSON value
and survives unchanged, except `releaseDate`. -/
def GVal.roundTrip (v : GVal) : GVal :=
  { v with releaseDate := serializeDate v.releaseDate }

/-- The cache time-to-live of `GameDataManager` (24 hours in milliseconds). -/
def cacheTTL : Int := 24 * 60 * 60 * 1000

/-- The mutable state of a `GameDataManager` plus the persistent store:
`games` / `isLoaded` are the session memo, `cache` holds the parsed form of
the stored payload together with its timestamp (`none` = no record). -/
structure LoaderState where
  games : List GVal
  isLoaded : Bool
  cache : Option (List GVal × Int)
deriving DecidableEq

deriving instance DecidableEq for Except

/-- The outcome of one `loadGames` call: the returned value or error, the
state after the call, and how many network fetches it issued. -/
structure LoadOutcome where
  result : Except Unit (List GVal)
  state : LoaderState
  fetches : ℕ
deriving DecidableEq

/-- `GameDataManager.getCachedData` at time `now`: `none` when no record
exists; an expired record is cleared and reported absent; a fresh record's
parsed payload is returned. -/
def getCachedData (now : Int) (st : LoaderState) : Option (List GVal) × LoaderState :=
  st.cache.elim (none, st) (fun pr =>
    if now - pr.2 > cacheTTL then (none, { st with cache := none })
    else (some pr.1, st))

/-- `GameDataManager.loadGames` at time `now`, with the network modelled as
`net` (`Except.error` = transport/HTTP/shape failure): memory memo first,
then fresh cache, then fetch + construct + write-back. -/
def loadGames (net : Except Unit (List RawGame)) (now : Int) (st : LoaderState) :
    LoadOutcome :=
  if st.isLoaded ∧ st.games ≠ [] then ⟨Except.ok st.games, st, 0⟩
  else
    let c := getCachedData now st
    c.1.elim
      (match net with
       | Except.error _ => ⟨Except.error (), c.2, 1⟩
       | Except.ok raw =>
         match mkGames raw with
         | Except.error _ => ⟨Except.error (), c.2, 1⟩
         | Except.ok gs =>
           let vals := gs.map Game.toVal
           ⟨Except.ok vals,
             { games := vals, isLoaded := true,
               cache := some (vals.map GVal.roundTrip, now) }, 1⟩)
      (fun payload =>
        ⟨Except.ok payload, { c.2 with games := payload, isLoaded := true }, 0⟩)

/-- `GameDataManager.refreshData`: clear the cache and the session memo, then
re-run `loadGames`.  The prior state is discarded wholesale. -/
def refreshData (net : Except Unit (List RawGame)) (now : Int) (_st : LoaderState) :
    LoadOutcome :=
  loadGames net now ⟨[], false, none⟩

/-- A freshly constructed `GameDataManager` sharing the persistent store of
`st`: empty memo, same cache record. -/
def freshSession (st : LoaderState) : LoaderState := ⟨[], false, st.cache⟩

/-- The state of a brand-new `GameDataManager` over an empty store. -/
def initLoader : LoaderState := ⟨[], false, none⟩

/-- The `Debouncer` of `SearchFilter.js`, run over a trace of `execute`
calls given as (time, value) pairs in call order: each call cancels the
pending timer and schedules the callback at its own time plus `delay`; the
callback fires only when the next call does not arrive before that. -/
def debounceRun (delay : ℕ) : List (ℕ × α) → List (ℕ × α)
  | [] => []
  | [e] => [(e.1 + delay, e.2)]
  | e :: f :: rest =>
    if f.1 < e.1 + delay then debounceRun delay (f :: rest)
    else (e.1 + delay, e.2) :: debounceRun delay (f :: rest)

/-- `execute` call `e` is followed by a full quiet delay within the trace
`evs`: no call lands strictly between `e`'s time and `e`'s time plus the
delay. -/
def quietAfter (delay : ℕ) (evs : List (ℕ × α)) (e : ℕ × α) : Bool :=
  evs.all (fun f => !(decide (e.1 < f.1) && decide (f.1 < e.1 + delay)))


/-- "`field` does not match the query at all": neither the whole trimmed
lower-cased term nor any of its words occurs in the (lower-cased) field;
the hypothesis shape of the scoring-tier claim. -/
def noFieldMatch (query : Str) (field : Str) : Prop :=
  ¬ (trimStr (jsToLower query) <:+: field) ∧
    ∀ w ∈ splitWs (trimStr (jsToLower query)), ¬ (w <:+: field)

instance (query field : Str) : Decidable (noFieldMatch query field) := by
  unfold noFieldMatch
  infer_instance

/-! ### Concrete sample data used by witnesses and counterexamples -/

/-- A minimal valid raw row: `id` "a", `title` "t", everything else absent. -/
def sampleRaw : RawGame :=
  ⟨some ['a'], some ['t'], none, none, none, none, none, none, none, none,
    none, none, none, none, none⟩

/-- The entity `sampleRaw` constructs. -/
def sampleGame : Game :=
  ⟨['a'], ['t'], [], [], [], 0, 0, "images/placeholder.jpg".data, [], [],
    [], [], none, [], []⟩

/-- A raw row whose rating parses to `7` and review count to `-3`. -/
def sampleRawHigh : RawGame :=
  ⟨some ['a'], some ['t'], none, none, none, some 7, some (-3), none, none,
    none, none, none, none, none, none⟩

/-- A raw row with a present release date (timestamp 5). -/
def sampleRawDated : RawGame :=
  ⟨some ['a'], some ['t'], none, none, none, none, none, none, none, none,
    none, none, some 5, none, none⟩

/-- The in-memory value of `sampleGame`. -/
def sampleVal : GVal := Game.toVal sampleGame

/-- A session holding a loaded catalog in memory, with no cache record. -/
def sampleLoaded : LoaderState := ⟨[sampleVal], true, none⟩

/-- A session with an empty loaded catalog and a cache record holding the
empty payload stored at time 0. -/
def sampleCachedEmpty : LoaderState := ⟨[], true, some ([], 0)⟩

/-- "Space Raiders", genre Action, rating 4. -/
def gameA : Game :=
  ⟨"a".data, "Space Raiders".data, [], [], ["Action".data], 4, 0,
    [], [], [], [], [], none, [], []⟩

/-- "Puzzle Quest", genre Puzzle, rating 3. -/
def gameB : Game :=
  ⟨"b".data, "Puzzle Quest".data, [], [], ["Puzzle".data], 3, 0,
    [], [], [], [], [], none, [], []⟩

/-- A game released before the epoch (timestamp -1). -/
def gameP : Game :=
  ⟨"p".data, "Pre".data, [], [], [], 0, 0, [], [], [], [], [], some (-1), [], []⟩

/-- A game with no release date. -/
def gameN : Game :=
  ⟨"n".data, "NoDate".data, [], [], [], 0, 0, [], [], [], [], [], none, [], []⟩

/-- A game titled exactly "War". -/
def gameExact : Game :=
  ⟨"x1".data, "War".data, [], [], [], 0, 0, [], [], [], [], [], none, [], []⟩

/-- A game whose title contains "war" only as a proper substring and whose
other fields are empty. -/
def gameSub : Game :=
  ⟨"x2".data, "Star Wars".data, [], [], [], 0, 0, [], [], [], [], [], none, [], []⟩

/-- A game matching "war" only in the full description. -/
def gameDesc : Game :=
  ⟨"x3".data, "Peace".data, [], "a war story".data, [], 0, 0, [], [], [], [],
    [], none, [], []⟩

/-- Filters selecting genre Puzzle with a rating between 1 and 3. -/
def sampleFiltersPz : Filters := ⟨none, some ("Puzzle".data), some 1, some 3, none, none⟩

/-- Filters with an inverted rating range (min 5 > max 4). -/
def sampleFiltersInv : Filters := ⟨none, none, some 5, some 4, none, none⟩

/-- The debounce scenario trace: calls at 0ms, 100ms, 200ms. -/
def sampleEvents : List (ℕ × Str) :=
  [(0, "a".data), (100, "ab".data), (200, "abc".data)]

/-! ### Helper lemmas about the stable sort and the word splitter -/

theorem insertOrd_eq (r : α → α → Bool) (x : α) (l : List α) :
    insertOrd r x l =
      l.takeWhile (fun y => !r x y) ++ x :: l.dropWhile (fun y => !r x y) := by
  induction l with
  | nil => simp [insertOrd]
  | cons y ys ih =>
    simp only [insertOrd, List.takeWhile_cons, List.dropWhile_cons]
    cases h : r x y <;> simp [h, ih]

theorem insertOrd_perm (r : α → α → Bool) (x : α) (l : List α) :
    List.Perm (insertOrd r x l) (x :: l) := by
  rw [insertOrd_eq]
  have h : List.Perm
      (l.takeWhile (fun y => !r x y) ++ x :: l.dropWhile (fun y => !r x y))
      (x :: (l.takeWhile (fun y => !r x y) ++ l.dropWhile (fun y => !r x y))) :=
    List.perm_middle
  rw [List.takeWhile_append_dropWhile] at h
  exact h

theorem sortStable_perm (r : α → α → Bool) (l : List α) :
    List.Perm (sortStable r l) l := by
  induction l with
  | nil => exact List.Perm.refl _
  | cons x xs ih => exact (insertOrd_perm r x _).trans (ih.cons x)

theorem mem_sortStable (r : α → α → Bool) (l : List α) (a : α) :
    a ∈ sortStable r l ↔ a ∈ l :=
  (sortStable_perm r l).mem_iff

theorem insertOrd_pairwise (r : α → α → Bool)
    (htot : ∀ a b, r a b = false → r b a = true)
    (htrans : ∀ a b c, r a b = true → r b c = true → r a c = true)
    (x : α) (l : List α) (hl : l.Pairwise (fun a b => r a b = true)) :
    (insertOrd r x l).Pairwise (fun a b => r a b = true) := by
  induction l with
  | nil => simp [insertOrd]
  | cons y ys ih =>
    rcases List.pairwise_cons.mp hl with ⟨hy, hys⟩
    cases h : r x y with
    | true =>
      simp only [insertOrd, h, if_true]
      refine List.pairwise_cons.mpr ⟨?_, hl⟩
      intro z hz
      rcases List.mem_cons.mp hz with rfl | hz
      · exact h
      · exact htrans x y z h (hy z hz)
    | false =>
      simp only [insertOrd, h, Bool.false_eq_true, if_false]
      refine List.pairwise_cons.mpr ⟨?_, ih hys⟩
      intro z hz
      rcases List.mem_cons.mp ((insertOrd_perm r x ys).mem_iff.mp hz) with rfl | hz
      · exact htot z y h
      · exact hy z hz

theorem sortStable_pairwise (r : α → α → Bool)
    (htot : ∀ a b, r a b = false → r b a = true)
    (htrans : ∀ a b c, r a b = true → r b c = true → r a c = true)
    (l : List α) : (sortStable r l).Pairwise (fun a b => r a b = true) := by
  induction l with
  | nil => simp [sortStable]
  | cons x xs ih => exact insertOrd_pairwise r htot htrans x _ ih

theorem sortStable_filter_key (k : α → ℕ) (n : ℕ) (l : List α) :
    (sortStable (fun a b => decide (k b ≤ k a)) l).filter (fun a => decide (k a = n)) =
      l.filter (fun a => decide (k a = n)) := by
  induction l with
  | nil => rfl
  | cons x xs ih =>
    have hsplit := List.takeWhile_append_dropWhile
      (p := fun y => !(decide (k y ≤ k x)))
      (l := sortStable (fun a b => decide (k b ≤ k a)) xs)
    have e1 : (sortStable (fun a b => decide (k b ≤ k a)) xs).filter
        (fun a => decide (k a = n)) =
        ((sortStable (fun a b => decide (k b ≤ k a)) xs).takeWhile
          (fun y => !(decide (k y ≤ k x)))).filter (fun a => decide (k a = n)) ++
        ((sortStable (fun a b => decide (k b ≤ k a)) xs).dropWhile
          (fun y => !(decide (k y ≤ k x)))).filter (fun a => decide (k a = n)) := by
      conv_lhs => rw [← hsplit]
      rw [List.filter_append]
    rw [sortStable, insertOrd_eq, List.filter_append]
    by_cases hx : k x = n
    · have h0 : ((sortStable (fun a b => decide (k b ≤ k a)) xs).takeWhile
          (fun y => !(decide (k y ≤ k x)))).filter (fun a => decide (k a = n)) = [] := by
        rw [List.filter_eq_nil_iff]
        intro y hy
        have h1 := List.mem_takeWhile_imp hy
        simp only [Bool.not_eq_eq_eq_not, Bool.not_true, decide_eq_false_iff_not,
          not_le] at h1
        simp only [decide_eq_true_eq]
        omega
      have hdrop : ((sortStable (fun a b => decide (k b ≤ k a)) xs).dropWhile
          (fun y => !(decide (k y ≤ k x)))).filter (fun a => decide (k a = n)) =
          xs.filter (fun a => decide (k a = n)) := by
        have e2 := e1
        rw [h0, List.nil_append, ih] at e2
        exact e2.symm
      rw [h0, List.nil_append, List.filter_cons, List.filter_cons, hdrop]
    · have hpx : (decide (k x = n)) = false := by
        simp only [decide_eq_false_iff_not]
        exact hx
      rw [List.filter_cons, List.filter_cons, hpx]
      simp only [Bool.false_eq_true, if_false]
      rw [← e1, ih]

theorem splitWsAux_infixes (s : Str) :
    ∀ acc w, w ∈ splitWsAux s acc → w <:+: acc.reverse ++ s := by
  induction s with
  | nil =>
    intro acc w hw
    simp only [splitWsAux] at hw
    by_cases h : acc.isEmpty
    · simp [h] at hw
    · simp only [h, Bool.false_eq_true, if_false, List.mem_singleton] at hw
      subst hw
      exact List.IsPrefix.isInfix ( List.prefix_append _ _)
  | cons c cs ih =>
    intro acc w hw
    simp only [splitWsAux] at hw
    by_cases hws : isWs c
    · simp only [hws, if_true] at hw
      by_cases hacc : acc.isEmpty
      · simp only [hacc, if_true] at hw
        have h := ih [] w hw
        simp only [List.reverse_nil, List.nil_append] at h
        have h2 : w <:+: c :: cs :=
          h.trans (List.IsSuffix.isInfix (List.suffix_cons c cs))
        exact h2.trans (List.IsSuffix.isInfix (List.suffix_append _ _))
      · simp only [hacc, Bool.false_eq_true, if_false, List.mem_cons] at hw
        rcases hw with rfl | hw
        · exact List.IsPrefix.isInfix ( List.prefix_append _ _)
        · have h := ih [] w hw
          simp only [List.reverse_nil, List.nil_append] at h
          have h2 : w <:+: c :: cs :=
            h.trans (List.IsSuffix.isInfix (List.suffix_cons c cs))
          exact h2.trans (List.IsSuffix.isInfix (List.suffix_append _ _))
    · simp only [hws, Bool.false_eq_true, if_false] at hw
      have h := ih (c :: acc) w hw
      rw [List.reverse_cons, List.append_assoc] at h
      simpa using h

theorem splitWs_infixes (s : Str) : ∀ w ∈ splitWs s, w <:+: s := by
  intro w hw
  have h := splitWsAux_infixes s [] w hw
  simpa using h

theorem falsyStr_iff (o : Option Str) : falsyStr o = true ↔ o = none ∨ o = some [] := by
  cases o with
  | none => simp [falsyStr]
  | some s => cases s <;> simp [falsyStr]

/-! ### The claims -/

/-- Claim C4: `Game` construction fails exactly when the raw row's `id` or
`title` is absent or empty; whenever both are present and non-empty it
succeeds regardless of the other fields, and the constructed entry's `id`
and `title` equal the input values exactly. -/
theorem C4_construction (d : RawGame) :
    ((∃ e, mkGame d = Except.error e) ↔
      (d.id = none ∨ d.id = some [] ∨ d.title = none ∨ d.title = some [])) ∧
    (∀ i t, d.id = some i → i ≠ [] → d.title = some t → t ≠ [] →
      ∃ g, mkGame d = Except.ok g ∧ g.id = i ∧ g.title = t) := by
  by_cases hb : (falsyStr d.id || falsyStr d.title) = true
  · have herr : mkGame d = Except.error () := by
      unfold mkGame
      rw [if_pos hb]
    refine ⟨⟨fun _ => ?_, fun _ => ⟨(), herr⟩⟩, ?_⟩
    · rcases Bool.or_eq_true_iff.mp hb with h | h
      · rcases (falsyStr_iff d.id).mp h with h1 | h1
        · exact Or.inl h1
        · exact Or.inr (Or.inl h1)
      · rcases (falsyStr_iff d.title).mp h with h1 | h1
        · exact Or.inr (Or.inr (Or.inl h1))
        · exact Or.inr (Or.inr (Or.inr h1))
    · intro i t hi hine ht htne
      exfalso
      rcases Bool.or_eq_true_iff.mp hb with h | h
      · rcases (falsyStr_iff d.id).mp h with h1 | h1 <;> rw [hi] at h1
        · exact Option.noConfusion h1
        · exact hine (Option.some.inj h1)
      · rcases (falsyStr_iff d.title).mp h with h1 | h1 <;> rw [ht] at h1
        · exact Option.noConfusion h1
        · exact htne (Option.some.inj h1)
  · refine ⟨⟨fun he => ?_, fun hc => ?_⟩, ?_⟩
    · rcases he with ⟨e, he⟩
      unfold mkGame at he
      rw [if_neg hb] at he
      exact Except.noConfusion he
    · exfalso
      apply hb
      rcases hc with h | h | h | h
      · exact Bool.or_eq_true_iff.mpr (Or.inl ((falsyStr_iff d.id).mpr (Or.inl h)))
      · exact Bool.or_eq_true_iff.mpr (Or.inl ((falsyStr_iff d.id).mpr (Or.inr h)))
      · exact Bool.or_eq_true_iff.mpr (Or.inr ((falsyStr_iff d.title).mpr (Or.inl h)))
      · exact Bool.or_eq_true_iff.mpr (Or.inr ((falsyStr_iff d.title).mpr (Or.inr h)))
    · intro i t hi hine ht htne
      cases hk : mkGame d with
      | error e =>
        exfalso
        unfold mkGame at hk
        rw [if_neg hb] at hk
        exact Except.noConfusion hk
      | ok g =>
        refine ⟨g, rfl, ?_, ?_⟩
        · unfold mkGame at hk
          rw [if_neg hb] at hk
          rw [← Except.ok.inj hk]
          simp [hi]
        · unfold mkGame at hk
          rw [if_neg hb] at hk
          rw [← Except.ok.inj hk]
          simp [ht]

/-- Witness for C4: a concrete raw row with `id` "a" and `title` "t"
constructs, copying both fields. -/
theorem C4_witness :
    ∃ g, mkGame sampleRaw = Except.ok g ∧ g.id = ['a'] ∧ g.title = ['t'] :=
  (C4_construction sampleRaw).2 ['a'] ['t'] rfl (by decide) rfl (by decide)

/-- Counterexample to C5: a raw row whose rating parses to `7` constructs an
entry with rating `7 > 5`, so constructed ratings are not confined to
`[0, 5]`. -/
theorem C5_counterexample :
    ¬ (∀ (d : RawGame) (g : Game), mkGame d = Except.ok g →
        0 ≤ g.rating ∧ g.rating ≤ 5 ∧ 0 ≤ g.reviewCount) := by
  intro hclaim
  have h7 : (mkGame sampleRawHigh).map Game.rating = Except.ok 7 := by decide
  cases hk : mkGame sampleRawHigh with
  | error e =>
    rw [hk] at h7
    simp only [Except.map] at h7
    exact Except.noConfusion h7
  | ok g =>
    rw [hk] at h7
    simp only [Except.map, Except.ok.injEq] at h7
    have hg := (hclaim sampleRawHigh g hk).2.1
    rw [h7] at hg
    norm_num at hg

/-- Claim C5 (amended): a constructed entry's rating is the numeric parse of
the raw rating (`0` when non-numeric) and its reviewCount is the integer
parse (`0` when non-numeric); they lie in `[0, 5]` resp. `[0, ∞)` whenever
the raw values do — the constructor applies no clamping beyond the
parse-default. -/
theorem C5_amended (d : RawGame) (g : Game) (h : mkGame d = Except.ok g) :
    g.rating = d.rating.getD 0 ∧ g.reviewCount = d.reviewCount.getD 0 ∧
    ((∀ q, d.rating = some q → 0 ≤ q ∧ q ≤ 5) → 0 ≤ g.rating ∧ g.rating ≤ 5) ∧
    ((∀ c, d.reviewCount = some c → 0 ≤ c) → 0 ≤ g.reviewCount) := by
  unfold mkGame at h
  by_cases hb : (falsyStr d.id || falsyStr d.title) = true
  · rw [if_pos hb] at h
    exact Except.noConfusion h
  · rw [if_neg hb] at h
    have hg := (Except.ok.inj h).symm
    subst hg
    refine ⟨rfl, rfl, ?_, ?_⟩
    · intro hq
      cases hr : d.rating with
      | none => simp [hr]
      | some q =>
        have hq2 := hq q hr
        simpa [hr] using hq2
    · intro hc
      cases hr : d.reviewCount with
      | none => simp [hr]
      | some c =>
        have hc2 := hc c hr
        simpa [hr] using hc2

/-- Witness for C5 (amended): applied to the minimal sample row, whose
rating and review count are absent and parse to `0`. -/
theorem C5_witness :
    sampleGame.rating = sampleRaw.rating.getD 0 ∧
    sampleGame.reviewCount = sampleRaw.reviewCount.getD 0 ∧
    ((∀ q, sampleRaw.rating = some q → 0 ≤ q ∧ q ≤ 5) →
      0 ≤ sampleGame.rating ∧ sampleGame.rating ≤ 5) ∧
    ((∀ c, sampleRaw.reviewCount = some c → 0 ≤ c) → 0 ≤ sampleGame.reviewCount) :=
  C5_amended sampleRaw sampleGame (by decide)

/-- Counterexample to C2: with a catalog loaded in memory, a refresh whose
reload fails leaves the session's catalog empty, not the previously loaded
one. -/
theorem C2_counterexample :
    (refreshData (Except.error ()) 0 sampleLoaded).result = Except.error () ∧
    (refreshData (Except.error ()) 0 sampleLoaded).state.games ≠ sampleLoaded.games := by
  constructor <;> decide

/-- Claim C2 (amended): `refreshData` discards the in-memory catalog before
re-running the load, so a failed refresh leaves the session with an empty
catalog (`games = []`, `isLoaded = false`) rather than the prior one. -/
theorem C2_amended (net : Except Unit (List RawGame)) (now : Int) (st : LoaderState)
    (h : (refreshData net now st).result = Except.error ()) :
    (refreshData net now st).state.games = [] ∧
    (refreshData net now st).state.isLoaded = false := by
  cases net with
  | error e => exact ⟨rfl, rfl⟩
  | ok raw =>
    cases hm : mkGames raw with
    | error e =>
      simp only [refreshData, loadGames, getCachedData, hm]
      exact ⟨rfl, rfl⟩
    | ok gs =>
      exfalso
      have hok : (refreshData (Except.ok raw) now st).result =
          Except.ok (gs.map Game.toVal) := by
        simp only [refreshData, loadGames, getCachedData, hm]
        rfl
      rw [h] at hok
      exact Except.noConfusion hok

/-- Witness for C2 (amended): a concrete failed refresh over a loaded
session leaves an empty catalog. -/
theorem C2_witness :
    (refreshData (Except.error ()) 0 sampleLoaded).state.games = [] ∧
    (refreshData (Except.error ()) 0 sampleLoaded).state.isLoaded = false :=
  C2_amended (Except.error ()) 0 sampleLoaded (by decide)

/-- Claim C10: over any strictly time-ordered trace of `execute` calls, the
debouncer fires exactly for the calls followed by a full quiet delay, at
that call's time plus the delay and with that call's value — so each call
discards the pending invocation, the callback fires at most once per quiet
period and always with the latest value; in particular the 0/100/200ms
scenario with delay 300 fires exactly once, at 500ms, with "abc". -/
theorem C10_debounce :
    (∀ (α : Type) (delay : ℕ) (evs : List (ℕ × α)),
      evs.Pairwise (fun e f => e.1 < f.1) →
      debounceRun delay evs =
        (evs.filter (quietAfter delay evs)).map (fun e => (e.1 + delay, e.2))) ∧
    debounceRun 300 sampleEvents = [(500, "abc".data)] := by
  constructor
  · intro α delay evs hp
    induction hp with
    | nil => rfl
    | @cons e rest he hrest ih =>
      cases rest with
      | nil => simp [debounceRun, quietAfter]
      | cons f rs =>
        have hef : e.1 < f.1 := he f (List.mem_cons_self f rs)
        have hcongr : ∀ x ∈ f :: rs,
            quietAfter delay (e :: f :: rs) x = quietAfter delay (f :: rs) x := by
          intro x hx
          have hex : e.1 < x.1 := he x hx
          have h0 : (decide (x.1 < e.1) && decide (e.1 < x.1 + delay)) = false := by
            have hn : ¬ (x.1 < e.1) := by omega
            simp [hn]
          simp only [quietAfter, List.all_cons, h0]
          simp
        by_cases hlt : f.1 < e.1 + delay
        · have hqe : quietAfter delay (e :: f :: rs) e = false := by
            have h1 : (decide (e.1 < f.1) && decide (f.1 < e.1 + delay)) = true := by
              simp [hef, hlt]
            simp only [quietAfter, List.all_cons, h1]
            simp
          rw [show debounceRun delay (e :: f :: rs) =
              debounceRun delay (f :: rs) from by
            simp [debounceRun, hlt]]
          rw [List.filter_cons]
          simp only [hqe, Bool.false_eq_true, if_false]
          rw [List.filter_congr hcongr]
          exact ih
        · have hqe : quietAfter delay (e :: f :: rs) e = true := by
            simp only [quietAfter, List.all_cons, Bool.and_eq_true, List.all_eq_true]
            refine ⟨?_, ?_, ?_⟩
            · simp
            · simp [hlt]
            · intro x hx
              have hfx : f.1 < x.1 := (List.pairwise_cons.mp hrest).1 x hx
              have hnx : ¬ (x.1 < e.1 + delay) := by omega
              simp [hnx]
          rw [show debounceRun delay (e :: f :: rs) =
              (e.1 + delay, e.2) :: debounceRun delay (f :: rs) from by
            simp [debounceRun, hlt]]
          rw [List.filter_cons]
          simp only [hqe, if_true]
          rw [List.filter_congr hcongr, List.map_cons]
          rw [ih]
  · decide

/-- Witness for C10: the general characterization applied to the concrete
scenario trace. -/
theorem C10_witness :
    debounceRun 300 sampleEvents =
      (sampleEvents.filter (quietAfter 300 sampleEvents)).map
        (fun e => (e.1 + 300, e.2)) :=
  C10_debounce.1 Str 300 sampleEvents (by decide)

theorem gameComparison_releaseDate (a b : Game) :
    gameComparison ("releaseDate".data) a b =
      ((a.releaseDate.getD 0 - b.releaseDate.getD 0 : Int) : ℚ) := by
  unfold gameComparison
  rw [if_neg (by decide), if_neg (by decide), if_pos rfl]

/-- Counterexample to C9: under the ascending release-date sort, a game dated
before the epoch (timestamp -1) is placed before a game with no release date,
so absent dates are not treated as earliest-possible. -/
theorem C9_counterexample :
    sortGames [gameP, gameN] ("releaseDate".data) ("asc".data) = [gameP, gameN] ∧
    gameP.releaseDate ≠ none ∧ gameN.releaseDate = none := by
  refine ⟨by decide, by decide, rfl⟩

/-- Claim C9 (amended): the release-date sort reads an absent date as the
epoch (`new Date(0)`), so ascending order places every absent-date entry
before every entry dated after the epoch (no post-epoch entry precedes an
absent one), and descending order places every entry dated after the epoch
before every absent-date entry; entries dated at or before the epoch are not
ordered relative to absent ones by date. -/
theorem C9_amended (games : List Game) :
    (sortGames games ("releaseDate".data) ("asc".data)).Pairwise
      (fun a b => b.releaseDate = none → a.releaseDate.getD 0 ≤ 0) ∧
    (sortGames games ("releaseDate".data) ("desc".data)).Pairwise
      (fun a b => a.releaseDate = none → b.releaseDate.getD 0 ≤ 0) := by
  have hasc : ∀ a b : Game,
      (decide ((if ("asc".data : Str) = "asc".data then
          gameComparison ("releaseDate".data) a b
        else -gameComparison ("releaseDate".data) a b) ≤ 0) = true) ↔
      a.releaseDate.getD 0 ≤ b.releaseDate.getD 0 := by
    intro a b
    rw [if_pos rfl, gameComparison_releaseDate]
    simp [sub_nonpos]
  have hdesc : ∀ a b : Game,
      (decide ((if ("desc".data : Str) = "asc".data then
          gameComparison ("releaseDate".data) a b
        else -gameComparison ("releaseDate".data) a b) ≤ 0) = true) ↔
      b.releaseDate.getD 0 ≤ a.releaseDate.getD 0 := by
    intro a b
    rw [if_neg (by decide), gameComparison_releaseDate]
    simp [neg_nonpos, sub_nonneg]
  constructor
  · have hs := sortStable_pairwise
      (fun a b : Game => decide ((if ("asc".data : Str) = "asc".data then
          gameComparison ("releaseDate".data) a b
        else -gameComparison ("releaseDate".data) a b) ≤ 0))
      (by
        intro a b hab
        have hab2 : decide ((if ("asc".data : Str) = "asc".data then
            gameComparison ("releaseDate".data) a b
          else -gameComparison ("releaseDate".data) a b) ≤ 0) = false := hab
        rw [hasc b a]
        have h1 : ¬ (a.releaseDate.getD 0 ≤ b.releaseDate.getD 0) := by
          intro hk
          have h2 := (hasc a b).mpr hk
          rw [h2] at hab2
          exact Bool.noConfusion hab2
        omega)
      (by
        intro a b c hab hbc
        rw [hasc a c]
        have h1 := (hasc a b).mp hab
        have h2 := (hasc b c).mp hbc
        omega)
      games
    unfold sortGames
    refine hs.imp ?_
    intro a b hr hnone
    have hk := (hasc a b).mp hr
    rw [hnone] at hk
    simpa using hk
  · have hs := sortStable_pairwise
      (fun a b : Game => decide ((if ("desc".data : Str) = "asc".data then
          gameComparison ("releaseDate".data) a b
        else -gameComparison ("releaseDate".data) a b) ≤ 0))
      (by
        intro a b hab
        have hab2 : decide ((if ("desc".data : Str) = "asc".data then
            gameComparison ("releaseDate".data) a b
          else -gameComparison ("releaseDate".data) a b) ≤ 0) = false := hab
        rw [hdesc b a]
        have h1 : ¬ (b.releaseDate.getD 0 ≤ a.releaseDate.getD 0) := by
          intro hk
          have h2 := (hdesc a b).mpr hk
          rw [h2] at hab2
          exact Bool.noConfusion hab2
        omega)
      (by
        intro a b c hab hbc
        rw [hdesc a c]
        have h1 := (hdesc a b).mp hab
        have h2 := (hdesc b c).mp hbc
        omega)
      games
    unfold sortGames
    refine hs.imp ?_
    intro a b hr hnone
    have hk := (hdesc a b).mp hr
    rw [hnone] at hk
    simpa using hk

/-- Witness for C9 (amended): the amended ordering facts on a concrete
two-game catalog. -/
theorem C9_witness :
    (sortGames [gameP, gameN] ("releaseDate".data) ("asc".data)).Pairwise
      (fun a b => b.releaseDate = none → a.releaseDate.getD 0 ≤ 0) ∧
    (sortGames [gameP, gameN] ("releaseDate".data) ("desc".data)).Pairwise
      (fun a b => a.releaseDate = none → b.releaseDate.getD 0 ≤ 0) :=
  C9_amended [gameP, gameN]

theorem sortStage_subset (g4 : List Game) (sb so : Option Str) (e : Game)
    (he : e ∈ sb.elim g4 (fun s =>
      if s ≠ [] then sortGames g4 s (orEmpty so ("desc".data)) else g4)) :
    e ∈ g4 := by
  cases sb with
  | none => exact he
  | some s =>
    simp only [Option.elim] at he
    by_cases hs : s ≠ []
    · rw [if_pos hs] at he
      unfold sortGames at he
      exact (mem_sortStable _ _ e).mp he
    · rw [if_neg hs] at he
      exact he

theorem maxStage_mem (g3 : List Game) (mx : Option ℚ) (e : Game)
    (he : e ∈ mx.elim g3 (fun m => g3.filter (fun game => decide (game.rating ≤ m)))) :
    e ∈ g3 ∧ ∀ m, mx = some m → e.rating ≤ m := by
  cases mx with
  | none => exact ⟨he, fun m h => Option.noConfusion h⟩
  | some m =>
    simp only [Option.elim] at he
    have h2 := List.mem_filter.mp he
    refine ⟨h2.1, ?_⟩
    intro m2 hm2
    have hmm : m = m2 := Option.some.inj hm2
    subst hmm
    simpa using h2.2

theorem minStage_mem (g2 : List Game) (mn : Option ℚ) (e : Game)
    (he : e ∈ mn.elim g2 (fun m => g2.filter (fun game => decide (m ≤ game.rating)))) :
    e ∈ g2 ∧ ∀ m, mn = some m → m ≤ e.rating := by
  cases mn with
  | none => exact ⟨he, fun m h => Option.noConfusion h⟩
  | some m =>
    simp only [Option.elim] at he
    have h2 := List.mem_filter.mp he
    refine ⟨h2.1, ?_⟩
    intro m2 hm2
    have hmm : m = m2 := Option.some.inj hm2
    subst hmm
    simpa using h2.2

theorem genreStage_mem (g1 : List Game) (gen : Option Str) (e : Game)
    (he : e ∈ gen.elim g1 (fun gn =>
      if gn ≠ [] ∧ gn ≠ "all".data then
        g1.filter (fun game => game.genre.any (fun s => jsToLower s == jsToLower gn))
      else g1)) :
    e ∈ g1 ∧ ∀ gn, gen = some gn → gn ≠ [] → gn ≠ "all".data →
      ∃ s ∈ e.genre, jsToLower s = jsToLower gn := by
  cases gen with
  | none => exact ⟨he, fun gn h => Option.noConfusion h⟩
  | some gn =>
    simp only [Option.elim] at he
    by_cases hg : gn ≠ [] ∧ gn ≠ "all".data
    · rw [if_pos hg] at he
      have h2 := List.mem_filter.mp he
      refine ⟨h2.1, ?_⟩
      intro gn2 hg2 _ _
      have hgg : gn = gn2 := Option.some.inj hg2
      subst hgg
      have h3 := h2.2
      simp only [List.any_eq_true, beq_iff_eq] at h3
      exact h3
    · rw [if_neg hg] at he
      refine ⟨he, ?_⟩
      intro gn2 hg2 hne hnall
      exfalso
      have hgg : gn = gn2 := Option.some.inj hg2
      subst hgg
      exact hg ⟨hne, hnall⟩

/-- Claim C6: every entry returned by `advancedSearch` satisfies all active
filters conjunctively — a genre filter other than "all" forces a
case-insensitive genre match, `minRating` / `maxRating` bound the rating from
below / above — and an inverted rating range (`maxRating < minRating`) yields
the empty result. -/
theorem C6_filters (games : List Game) (filters : Filters) :
    (∀ e ∈ advancedSearch games filters,
      (∀ gn, filters.genre = some gn → gn ≠ [] → gn ≠ "all".data →
        ∃ s ∈ e.genre, jsToLower s = jsToLower gn) ∧
      (∀ m, filters.minRating = some m → m ≤ e.rating) ∧
      (∀ m, filters.maxRating = some m → e.rating ≤ m)) ∧
    (∀ mn mx, filters.minRating = some mn → filters.maxRating = some mx →
      mx < mn → advancedSearch games filters = []) := by
  constructor
  · intro e he
    simp only [advancedSearch] at he
    have h4 := sortStage_subset _ filters.sortBy filters.sortOrder e he
    have h3 := maxStage_mem _ filters.maxRating e h4
    have h2 := minStage_mem _ filters.minRating e h3.1
    have h1 := genreStage_mem _ filters.genre e h2.1
    exact ⟨h1.2, h2.2, h3.2⟩
  · intro mn mx hmn hmx hlt
    simp only [advancedSearch, hmn, hmx, Option.elim]
    have hempty : ∀ g2 : List Game,
        (g2.filter (fun game => decide (mn ≤ game.rating))).filter
          (fun game => decide (game.rating ≤ mx)) = [] := by
      intro g2
      rw [List.filter_eq_nil_iff]
      intro a ha
      have h1 := (List.mem_filter.mp ha).2
      simp only [decide_eq_true_eq] at h1 ⊢
      intro h2
      linarith
    rw [hempty]
    cases filters.sortBy with
    | none => rfl
    | some sb =>
      simp only [Option.elim]
      by_cases hs : sb ≠ []
      · rw [if_pos hs]
        rfl
      · rw [if_neg hs]

/-- Witness for C6: over the two-game catalog, the Puzzle/1..3 filters select
`gameB` and the facts hold there; the inverted range 5..4 empties the result. -/
theorem C6_witness :
    ((∀ gn, sampleFiltersPz.genre = some gn → gn ≠ [] → gn ≠ "all".data →
        ∃ s ∈ gameB.genre, jsToLower s = jsToLower gn) ∧
      (∀ m, sampleFiltersPz.minRating = some m → m ≤ gameB.rating) ∧
      (∀ m, sampleFiltersPz.maxRating = some m → gameB.rating ≤ m)) ∧
    advancedSearch [gameA, gameB] sampleFiltersInv = [] :=
  ⟨(C6_filters [gameA, gameB] sampleFiltersPz).1 gameB (by decide),
    (C6_filters [gameA, gameB] sampleFiltersInv).2 5 4 rfl rfl (by norm_num)⟩

theorem getCachedData_some (now : Int) (st : LoaderState) (payload : List GVal)
    (h : (getCachedData now st).1 = some payload) :
    (getCachedData now st).2 = st ∧
    ∃ ts, st.cache = some (payload, ts) ∧ ¬ (now - ts > cacheTTL) := by
  cases hc : st.cache with
  | none =>
    unfold getCachedData at h
    rw [hc] at h
    simp [Option.elim] at h
  | some pr =>
    unfold getCachedData at h ⊢
    rw [hc] at h ⊢
    simp only [Option.elim] at h ⊢
    by_cases hexp : now - pr.2 > cacheTTL
    · rw [if_pos hexp] at h
      simp at h
    · rw [if_neg hexp] at h ⊢
      simp only [Option.some.injEq] at h
      refine ⟨rfl, pr.2, ?_, hexp⟩
      rw [← h]

theorem getCachedData_fresh (now : Int) (st : LoaderState) (payload : List GVal)
    (ts : Int) (hc : st.cache = some (payload, ts)) (hfresh : ¬ (now - ts > cacheTTL)) :
    getCachedData now st = (some payload, st) := by
  unfold getCachedData
  rw [hc]
  simp only [Option.elim]
  rw [if_neg hfresh]

theorem load_cache_hit (net : Except Unit (List RawGame)) (now : Int)
    (st : LoaderState) (payload : List GVal)
    (hmem : ¬ (st.isLoaded = true ∧ st.games ≠ []))
    (hc : (getCachedData now st).1 = some payload) :
    loadGames net now st =
      ⟨Except.ok payload,
        { (getCachedData now st).2 with games := payload, isLoaded := true }, 0⟩ := by
  simp only [loadGames]
  rw [if_neg hmem, hc]
  simp only [Option.elim]

theorem load_fetch_state (net : Except Unit (List RawGame)) (now : Int)
    (st : LoaderState) (l : List GVal) (st1 : LoaderState) (f1 : ℕ)
    (hmem : ¬ (st.isLoaded = true ∧ st.games ≠ []))
    (hc : (getCachedData now st).1 = none)
    (h : loadGames net now st = ⟨Except.ok l, st1, f1⟩) :
    st1 = ⟨l, true, some (l.map GVal.roundTrip, now)⟩ ∧ f1 = 1 := by
  cases net with
  | error e =>
    simp only [loadGames] at h
    rw [if_neg hmem, hc] at h
    simp only [Option.elim, LoadOutcome.mk.injEq] at h
    exact Except.noConfusion h.1
  | ok raw =>
    cases hm : mkGames raw with
    | error e =>
      simp only [loadGames, hm] at h
      rw [if_neg hmem, hc] at h
      simp only [Option.elim, LoadOutcome.mk.injEq] at h
      exact Except.noConfusion h.1
    | ok gs =>
      simp only [loadGames, hm] at h
      rw [if_neg hmem, hc] at h
      simp only [Option.elim, LoadOutcome.mk.injEq, Except.ok.injEq] at h
      obtain ⟨hvals, hst, hf⟩ := h
      subst hvals
      exact ⟨hst.symm, hf.symm⟩

theorem load_refetch (net : Except Unit (List RawGame)) (now : Int) (l : List GVal) :
    (loadGames net now ⟨l, true, some (l.map GVal.roundTrip, now)⟩).result =
      Except.ok l ∧
    (loadGames net now ⟨l, true, some (l.map GVal.roundTrip, now)⟩).fetches = 0 := by
  by_cases hl : l = []
  · subst hl
    have hT : cacheTTL = 86400000 := rfl
    have hfresh : ¬ (now - now > cacheTTL) := by omega
    have hgcd := getCachedData_fresh now ⟨[], true, some (([] : List GVal), now)⟩
      ([] : List GVal) now rfl hfresh
    have h1 := load_cache_hit net now ⟨[], true, some (([] : List GVal), now)⟩
      ([] : List GVal) (by simp) (by rw [hgcd])
    constructor <;>
    · simp only [List.map_nil]
      rw [h1]
  · constructor <;>
    · simp only [loadGames]
      rw [if_pos (show True ∧ l ≠ [] from ⟨trivial, hl⟩)]

/-- Claim C8: a second `loadGames` call right after a successful one returns
the same list (deep-equal) and issues no further network fetch; in total the
two calls fetch at most once, for every catalog including the empty one. -/
theorem C8_idempotent (net : Except Unit (List RawGame)) (now : Int)
    (st0 : LoaderState) (l : List GVal) (st1 : LoaderState) (f1 : ℕ)
    (h : loadGames net now st0 = ⟨Except.ok l, st1, f1⟩) :
    (loadGames net now st1).result = Except.ok l ∧
    (loadGames net now st1).fetches = 0 ∧ f1 ≤ 1 := by
  by_cases hmem : st0.isLoaded = true ∧ st0.games ≠ []
  · have h1 : loadGames net now st0 = ⟨Except.ok st0.games, st0, 0⟩ := by
      simp only [loadGames]
      rw [if_pos hmem]
    rw [h1] at h
    simp only [LoadOutcome.mk.injEq, Except.ok.injEq] at h
    obtain ⟨hgames, hst, hf⟩ := h
    subst hst
    have h2 : loadGames net now st0 = ⟨Except.ok st0.games, st0, 0⟩ := h1
    rw [h2]
    exact ⟨by rw [hgames], rfl, by omega⟩
  · cases hcopt : (getCachedData now st0).1 with
    | some payload =>
      obtain ⟨hst2, ts, hcache, hfresh⟩ := getCachedData_some now st0 payload hcopt
      have h1 := load_cache_hit net now st0 payload hmem hcopt
      rw [h1] at h
      simp only [LoadOutcome.mk.injEq, Except.ok.injEq] at h
      obtain ⟨hpl, hst, hf⟩ := h
      subst hpl
      rw [hst2] at hst
      by_cases hl : payload = []
      · subst hl
        have hguard : ¬ (st1.isLoaded = true ∧ st1.games ≠ []) := by
          rw [← hst]
          simp
        have hc1 : st1.cache = some (([] : List GVal), ts) := by
          rw [← hst]
          simpa using hcache
        have hgcd := getCachedData_fresh now st1 ([] : List GVal) ts hc1 hfresh
        have h2 := load_cache_hit net now st1 ([] : List GVal) hguard (by rw [hgcd])
        rw [h2]
        exact ⟨rfl, rfl, by omega⟩
      · have hguard : st1.isLoaded = true ∧ st1.games ≠ [] := by
          rw [← hst]
          exact ⟨rfl, by simpa using hl⟩
        have h2 : loadGames net now st1 = ⟨Except.ok st1.games, st1, 0⟩ := by
          simp only [loadGames]
          rw [if_pos hguard]
        have hgames : st1.games = payload := by
          rw [← hst]
        rw [h2, hgames]
        exact ⟨rfl, rfl, by omega⟩
    | none =>
      obtain ⟨hst1eq, hf1⟩ := load_fetch_state net now st0 l st1 f1 hmem hcopt h
      subst hst1eq
      have h2 := load_refetch net now l
      exact ⟨h2.1, h2.2, by omega⟩

/-- Witness for C8: loading the empty catalog from a fresh manager, then
again from the resulting state, returns the same empty list with no second
fetch. -/
theorem C8_witness :
    (loadGames (Except.ok []) 0 ⟨[], true, some (([] : List GVal), 0)⟩).result =
      Except.ok ([] : List GVal) ∧
    (loadGames (Except.ok []) 0 ⟨[], true, some (([] : List GVal), 0)⟩).fetches = 0 ∧
    (1 : ℕ) ≤ 1 :=
  C8_idempotent (Except.ok []) 0 initLoader [] ⟨[], true, some ([], 0)⟩ 1 (by decide)

theorem load_fetch_games (raw : List RawGame) (now : Int)
    (st : LoaderState) (l : List GVal) (st1 : LoaderState) (f1 : ℕ)
    (hmem : ¬ (st.isLoaded = true ∧ st.games ≠ []))
    (hc : (getCachedData now st).1 = none)
    (h : loadGames (Except.ok raw) now st = ⟨Except.ok l, st1, f1⟩) :
    ∃ gs, mkGames raw = Except.ok gs ∧ l = gs.map Game.toVal := by
  cases hm : mkGames raw with
  | error e =>
    simp only [loadGames, hm] at h
    rw [if_neg hmem, hc] at h
    simp only [Option.elim, LoadOutcome.mk.injEq] at h
    exact Except.noConfusion h.1
  | ok gs =>
    simp only [loadGames, hm] at h
    rw [if_neg hmem, hc] at h
    simp only [Option.elim, LoadOutcome.mk.injEq, Except.ok.injEq] at h
    exact ⟨gs, rfl, h.1.symm⟩

theorem mkGames_mem (raw : List RawGame) (gs : List Game)
    (h : mkGames raw = Except.ok gs) :
    ∀ g ∈ gs, ∃ r ∈ raw, mkGame r = Except.ok g := by
  induction raw generalizing gs with
  | nil =>
    simp only [mkGames, Except.ok.injEq] at h
    subst h
    intro g hg
    exact absurd hg (List.not_mem_nil g)
  | cons d ds ih =>
    simp only [mkGames] at h
    cases hd : mkGame d with
    | error e =>
      cases hds : mkGames ds <;> simp only [hd, hds] at h <;>
        exact Except.noConfusion h
    | ok g0 =>
      cases hds : mkGames ds with
      | error e =>
        simp only [hd, hds] at h
        exact Except.noConfusion h
      | ok gs0 =>
        simp only [hd, hds, Except.ok.injEq] at h
        subst h
        intro g hg
        rcases List.mem_cons.mp hg with rfl | hg
        · exact ⟨d, List.mem_cons_self d ds, hd⟩
        · obtain ⟨r, hr, hrg⟩ := ih gs0 hds g hg
          exact ⟨r, List.mem_cons_of_mem d hr, hrg⟩

theorem mkGame_releaseDate (d : RawGame) (g : Game) (h : mkGame d = Except.ok g) :
    g.releaseDate = d.releaseDate := by
  unfold mkGame at h
  by_cases hb : (falsyStr d.id || falsyStr d.title) = true
  · rw [if_pos hb] at h
    exact Except.noConfusion h
  · rw [if_neg hb] at h
    rw [← Except.ok.inj h]

theorem roundTrip_of_releaseDate_none (g : Game) (h : g.releaseDate = none) :
    GVal.roundTrip (Game.toVal g) = Game.toVal g := by
  unfold Game.toVal GVal.roundTrip serializeDate
  rw [h]

/-- Counterexample to C1: for a catalog with one dated row, a fresh session
served from the cache written by the network load does not return the same
list of in-memory values — the cached `releaseDate` comes back as a string
rather than a date. -/
theorem C1_counterexample :
    (loadGames (Except.ok [sampleRawDated]) 0
      (freshSession (loadGames (Except.ok [sampleRawDated]) 0 initLoader).state)).result ≠
      (loadGames (Except.ok [sampleRawDated]) 0 initLoader).result ∧
    (loadGames (Except.ok [sampleRawDated]) 0 initLoader).result ≠ Except.error () := by
  constructor <;> decide

/-- Claim C1 (amended): the loader caches the JSON-serialized constructed
entity list (not the pre-entity raw payload), and a cache-served load in a
fresh session returns the JSON round trip of the network load's list without
reconstructing entities; the two coincide exactly on the entries whose
`releaseDate` is absent, so for catalogs with no release dates the
cache-served load equals the network load. -/
theorem C1_amended (raw : List RawGame) (now : Int) (l : List GVal)
    (st : LoaderState) (f : ℕ)
    (h : loadGames (Except.ok raw) now initLoader = ⟨Except.ok l, st, f⟩) :
    (loadGames (Except.ok raw) now (freshSession st)).result =
      Except.ok (l.map GVal.roundTrip) ∧
    ((∀ r ∈ raw, r.releaseDate = none) → l.map GVal.roundTrip = l) := by
  have hmem : ¬ (initLoader.isLoaded = true ∧ initLoader.games ≠ []) := by
    simp [initLoader]
  have hc : (getCachedData now initLoader).1 = none := rfl
  obtain ⟨hst, hf⟩ := load_fetch_state (Except.ok raw) now initLoader l st f hmem hc h
  subst hst
  constructor
  · have hT : cacheTTL = 86400000 := rfl
    have hfresh : ¬ (now - now > cacheTTL) := by omega
    have hgcd := getCachedData_fresh now
      (freshSession ⟨l, true, some (l.map GVal.roundTrip, now)⟩)
      (l.map GVal.roundTrip) now rfl hfresh
    have h1 := load_cache_hit (Except.ok raw) now
      (freshSession ⟨l, true, some (l.map GVal.roundTrip, now)⟩)
      (l.map GVal.roundTrip) (by simp [freshSession]) (by rw [hgcd])
    rw [h1]
  · intro hnone
    obtain ⟨gs, hgs, hlv⟩ := load_fetch_games raw now initLoader l
      ⟨l, true, some (l.map GVal.roundTrip, now)⟩ f hmem hc h
    subst hlv
    rw [List.map_map]
    apply List.map_congr_left
    intro g hg
    obtain ⟨r, hr, hrg⟩ := mkGames_mem raw gs hgs g hg
    exact roundTrip_of_releaseDate_none g
      (by rw [mkGame_releaseDate r g hrg]; exact hnone r hr)

/-- Witness for C1 (amended): the empty catalog — the cache-served load
returns the round trip of the empty list, which equals it. -/
theorem C1_witness :
    (loadGames (Except.ok []) 0
      (freshSession ⟨[], true, some (([] : List GVal), 0)⟩)).result =
      Except.ok (([] : List GVal).map GVal.roundTrip) ∧
    ((∀ r ∈ ([] : List RawGame), r.releaseDate = none) →
      ([] : List GVal).map GVal.roundTrip = []) :=
  C1_amended [] 0 [] ⟨[], true, some ([], 0)⟩ 1 (by decide)

theorem mem_scored_snd (games : List Game) (f : Game → ℕ) (p : Game × ℕ)
    (hp : p ∈ games.map (fun g => (g, f g))) : p.2 = f p.1 := by
  obtain ⟨a, ha, rfl⟩ := List.mem_map.mp hp
  rfl

/-- Claim C3: a blank query passes the catalog through unchanged; a
non-blank query returns exactly the entries of strictly positive relevance
score, in non-increasing score order, with equal-score entries kept in
catalog order (the result filtered at each score equals the catalog
filtered at that score). -/
theorem C3_search (games : List Game) (query : Str) :
    (trimStr query = [] → searchGames games query = games) ∧
    (trimStr query ≠ [] →
      (∀ g ∈ searchGames games query, 0 < searchRank query g) ∧
      (searchGames games query).Pairwise
        (fun a b => searchRank query b ≤ searchRank query a) ∧
      (∀ n, 0 < n →
        (searchGames games query).filter (fun g => decide (searchRank query g = n)) =
          games.filter (fun g => decide (searchRank query g = n)))) := by
  constructor
  · intro h
    simp only [searchGames]
    rw [if_pos h]
  · intro h
    have hsg : searchGames games query =
        (sortStable searchScoreGe
          ((games.map (fun g => (g, searchRank query g))).filter
            (fun it => decide (0 < it.2)))).map Prod.fst := by
      simp only [searchGames, searchRank]
      rw [if_neg h]
    refine ⟨?_, ?_, ?_⟩
    · intro g hg
      rw [hsg] at hg
      obtain ⟨p, hp, rfl⟩ := List.mem_map.mp hg
      have hp2 := (mem_sortStable _ _ p).mp hp
      have hp3 := List.mem_filter.mp hp2
      have hsnd : p.2 = searchRank query p.1 := mem_scored_snd games _ p hp3.1
      have hpos := hp3.2
      simp only [decide_eq_true_eq] at hpos
      rw [hsnd] at hpos
      exact hpos
    · rw [hsg, List.pairwise_map]
      have hs := sortStable_pairwise searchScoreGe
        (by
          intro a b hab
          unfold searchScoreGe at hab ⊢
          simp only [decide_eq_false_iff_not] at hab
          simp only [decide_eq_true_eq]
          omega)
        (by
          intro a b c hab hbc
          unfold searchScoreGe at hab hbc ⊢
          simp only [decide_eq_true_eq] at hab hbc ⊢
          omega)
        ((games.map (fun g => (g, searchRank query g))).filter
          (fun it => decide (0 < it.2)))
      refine List.Pairwise.imp_of_mem ?_ hs
      intro a b ha hb hr
      unfold searchScoreGe at hr
      simp only [decide_eq_true_eq] at hr
      have hsa : a.2 = searchRank query a.1 := mem_scored_snd games _ a
        (List.mem_filter.mp ((mem_sortStable _ _ a).mp ha)).1
      have hsb : b.2 = searchRank query b.1 := mem_scored_snd games _ b
        (List.mem_filter.mp ((mem_sortStable _ _ b).mp hb)).1
      rw [hsa, hsb] at hr
      exact hr
    · intro n hn
      rw [hsg, List.filter_map]
      have hcongr1 : ∀ p ∈ sortStable searchScoreGe
          ((games.map (fun g => (g, searchRank query g))).filter
            (fun it => decide (0 < it.2))),
          ((fun g => decide (searchRank query g = n)) ∘ Prod.fst) p =
            (fun a : Game × ℕ => decide (a.2 = n)) p := by
        intro p hp
        have hsnd : p.2 = searchRank query p.1 := mem_scored_snd games _ p
          (List.mem_filter.mp ((mem_sortStable _ _ p).mp hp)).1
        simp only [Function.comp]
        rw [hsnd]
      rw [List.filter_congr hcongr1]
      rw [show searchScoreGe = (fun a b : Game × ℕ => decide (b.2 ≤ a.2)) from rfl]
      rw [sortStable_filter_key (fun p : Game × ℕ => p.2) n
        ((games.map (fun g => (g, searchRank query g))).filter
          (fun it => decide (0 < it.2)))]
      rw [List.filter_filter, List.filter_map, List.map_map]
      have hcongr2 : ∀ g ∈ games,
          ((fun a : Game × ℕ => decide (a.2 = n) && decide (0 < a.2)) ∘
            (fun g => (g, searchRank query g))) g =
          (fun g => decide (searchRank query g = n)) g := by
        intro g _
        simp only [Function.comp]
        by_cases hgn : searchRank query g = n
        · have h1 : decide (searchRank query g = n) = true := by simp [hgn]
          have h2 : decide (0 < searchRank query g) = true := by simp [hgn, hn]
          rw [h1, h2]
          rfl
        · have h1 : decide (searchRank query g = n) = false := by simp [hgn]
          rw [h1]
          rfl
      rw [List.filter_congr hcongr2]
      exact List.map_id'' (fun x => rfl) _

/-- Witness for C3: the blank query passes the demo catalog through; the
"space" query's result facts are obtained from the theorem at that input. -/
theorem C3_witness :
    searchGames [gameA, gameB] (" ".data) = [gameA, gameB] ∧
    (searchGames [gameA, gameB] ("space".data)).Pairwise
      (fun a b => searchRank ("space".data) b ≤ searchRank ("space".data) a) :=
  ⟨(C3_search [gameA, gameB] (" ".data)).1 (by decide),
    ((C3_search [gameA, gameB] ("space".data)).2 (by decide)).2.1⟩

theorem countP_words_all (query fl : Str)
    (h : trimStr (jsToLower query) <:+: fl) :
    (splitWs (trimStr (jsToLower query))).countP (fun w => decide (w <:+: fl)) =
      (splitWs (trimStr (jsToLower query))).length := by
  rw [List.countP_eq_length]
  intro w hw
  simp only [decide_eq_true_eq]
  exact (splitWs_infixes _ w hw).trans h

theorem countP_words_zero (query fl : Str) (h : noFieldMatch query fl) :
    (splitWs (trimStr (jsToLower query))).countP (fun w => decide (w <:+: fl)) = 0 := by
  rw [List.countP_eq_zero]
  intro w hw
  simp only [decide_eq_true_eq]
  exact h.2 w hw

theorem noFieldMatch_facts (query fl : Str) (h : noFieldMatch query fl) :
    fl ≠ trimStr (jsToLower query) ∧ ¬ (trimStr (jsToLower query) <+: fl) ∧
      ¬ (trimStr (jsToLower query) <:+: fl) := by
  refine ⟨?_, ?_, h.1⟩
  · intro he
    apply h.1
    rw [he]
  · intro hp
    exact h.1 ( List.IsPrefix.isInfix hp)

theorem genreTagScore_zero (query : Str) (fields : List Str) (c1 c2 c3 : ℕ)
    (h : ∀ s ∈ fields, noFieldMatch query (jsToLower s)) :
    ((fields.map jsToLower).map (fun fl =>
      (if fl = trimStr (jsToLower query) then c1
        else if trimStr (jsToLower query) <:+: fl then c2 else 0)
      + c3 * (splitWs (trimStr (jsToLower query))).countP
          (fun w => decide (w <:+: fl)))).sum = 0 := by
  apply List.sum_eq_zero
  intro x hx
  obtain ⟨fl, hfl, rfl⟩ := List.mem_map.mp hx
  obtain ⟨s, hs, rfl⟩ := List.mem_map.mp hfl
  obtain ⟨hne, hpre, hinf⟩ := noFieldMatch_facts query (jsToLower s) (h s hs)
  rw [if_neg hne, if_neg hinf, countP_words_zero query _ (h s hs)]
  omega

/-- Claim C7: for every non-blank query, an entry whose lower-cased title
exactly equals the trimmed lower-cased query scores strictly higher than an
entry whose title contains it only as a proper substring with no other field
matching, which in turn scores strictly higher than an entry matching the
query only in its full description. -/
theorem C7_tiering (query : Str) (A B C : Game)
    (_hq : trimStr query ≠ [])
    (hA : jsToLower A.title = trimStr (jsToLower query))
    (hBsub : trimStr (jsToLower query) <:+: jsToLower B.title)
    (hBne : jsToLower B.title ≠ trimStr (jsToLower query))
    (hBgenre : ∀ s ∈ B.genre, noFieldMatch query (jsToLower s))
    (hBtags : ∀ s ∈ B.tags, noFieldMatch query (jsToLower s))
    (hBdev : noFieldMatch query (jsToLower B.developer))
    (hBdesc : noFieldMatch query (jsToLower B.description))
    (hBfull : noFieldMatch query (jsToLower B.fullDescription))
    (hCfull : trimStr (jsToLower query) <:+: jsToLower C.fullDescription)
    (hCtitle : noFieldMatch query (jsToLower C.title))
    (hCgenre : ∀ s ∈ C.genre, noFieldMatch query (jsToLower s))
    (hCtags : ∀ s ∈ C.tags, noFieldMatch query (jsToLower s))
    (hCdev : noFieldMatch query (jsToLower C.developer))
    (hCdesc : noFieldMatch query (jsToLower C.description)) :
    searchRank query C < searchRank query B ∧
    searchRank query B < searchRank query A := by
  have hAge : 100 + 40 * (splitWs (trimStr (jsToLower query))).length ≤
      searchRank query A := by
    simp only [searchRank, calculateSearchScore]
    rw [if_pos hA, hA, countP_words_all query _ (List.infix_refl _)]
    omega
  have hBle : searchRank query B ≤
        80 + 40 * (splitWs (trimStr (jsToLower query))).length ∧
      60 + 40 * (splitWs (trimStr (jsToLower query))).length ≤
        searchRank query B := by
    simp only [searchRank, calculateSearchScore]
    rw [if_neg hBne]
    rw [genreTagScore_zero query B.genre 70 50 30 hBgenre]
    rw [genreTagScore_zero query B.tags 60 40 25 hBtags]
    rw [if_neg hBdev.1, countP_words_zero query _ hBdev]
    rw [if_neg hBdesc.1, if_neg hBfull.1]
    rw [countP_words_zero query _ hBdesc, countP_words_zero query _ hBfull]
    rw [countP_words_all query _ hBsub]
    by_cases hp : trimStr (jsToLower query) <+: jsToLower B.title
    · rw [if_pos hp]
      omega
    · rw [if_neg hp, if_pos hBsub]
      omega
  have hCeq : searchRank query C =
      20 + 10 * (splitWs (trimStr (jsToLower query))).length := by
    simp only [searchRank, calculateSearchScore]
    obtain ⟨hne, hpre, hinf⟩ := noFieldMatch_facts query (jsToLower C.title) hCtitle
    rw [if_neg hne, if_neg hpre, if_neg hinf]
    rw [countP_words_zero query _ hCtitle]
    rw [genreTagScore_zero query C.genre 70 50 30 hCgenre]
    rw [genreTagScore_zero query C.tags 60 40 25 hCtags]
    rw [if_neg hCdev.1, countP_words_zero query _ hCdev]
    rw [if_neg hCdesc.1, if_pos hCfull]
    rw [countP_words_zero query _ hCdesc]
    rw [countP_words_all query _ hCfull]
    omega
  constructor
  · rw [hCeq]
    have h2 := hBle.2
    omega
  · have h1 := hBle.1
    have h2 := hAge
    omega

/-- Witness for C7: with query "war", the exactly-titled game outranks the
substring-titled one, which outranks the description-only match. -/
theorem C7_witness :
    searchRank ("war".data) gameDesc < searchRank ("war".data) gameSub ∧
    searchRank ("war".data) gameSub < searchRank ("war".data) gameExact :=
  C7_tiering ("war".data) gameExact gameSub gameDesc (by decide) (by decide)
    (by decide) (by decide) (by decide) (by decide) (by decide) (by decide)
    (by decide) (by decide) (by decide) (by decide) (by decide) (by decide)
    (by decide)
